import Mathlib

/-!
Verification of the `rethinkdb.logs` artificial-table backend
(`src/clustering/administration/logs/logs_backend.cc`).

The development shallowly embeds the backend: the row/key codec, the point
lookup `read_row`, the write rejection `write_row`, the parallel snapshot
reader `read_all_rows_raw`, and the changefeed machinery
(`cfeed_machinery_t`: constructor, `on_change`, `run`, `check_disconnected`,
`get_initial_values`).  External collaborators that are not part of this
translation unit (time formatting, server-id encoding, the log-fetch RPC,
the directory) are modelled from the specification, as noted at each
definition.
-/

namespace LogsBackend

/-- `timespec` (seconds + nanoseconds), as used by the backend. -/
structure Timespec where
  tv_sec : Int
  tv_nsec : Int
deriving DecidableEq, Repr

/-- Modelled from the spec: the C library lexicographic `operator<=` on
`timespec` values used by `it->timestamp <= *last_timestamp.get_value()`. -/
def Timespec.leb (a b : Timespec) : Bool :=
  decide (a.tv_sec < b.tv_sec ∨ (a.tv_sec = b.tv_sec ∧ a.tv_nsec ≤ b.tv_nsec))

/-- Modelled from the spec: the lexicographic `operator<` on `timespec`
values used by `it->second < message.timestamp`. -/
def Timespec.ltb (a b : Timespec) : Bool :=
  decide (a.tv_sec < b.tv_sec ∨ (a.tv_sec = b.tv_sec ∧ a.tv_nsec < b.tv_nsec))

theorem Timespec.leb_iff {a b : Timespec} :
    a.leb b = true ↔
      (a.tv_sec < b.tv_sec ∨ (a.tv_sec = b.tv_sec ∧ a.tv_nsec ≤ b.tv_nsec)) := by
  simp [Timespec.leb]

theorem Timespec.ltb_iff {a b : Timespec} :
    a.ltb b = true ↔
      (a.tv_sec < b.tv_sec ∨ (a.tv_sec = b.tv_sec ∧ a.tv_nsec < b.tv_nsec)) := by
  simp [Timespec.ltb]

theorem Timespec.leb_refl (a : Timespec) : a.leb a = true := by
  simp [Timespec.leb]

theorem Timespec.not_leb_iff_ltb {a b : Timespec} :
    a.leb b = false ↔ b.ltb a = true := by
  simp only [Timespec.ltb_iff]
  rw [← Bool.not_eq_true, Timespec.leb_iff]
  constructor
  · intro h
    rcases Int.lt_trichotomy a.tv_sec b.tv_sec with h1 | h1 | h1
    · exact absurd (Or.inl h1) h
    · right
      refine ⟨h1.symm, ?_⟩
      by_contra h2
      exact h (Or.inr ⟨h1, by omega⟩)
    · exact Or.inl h1
  · rintro (h1 | ⟨h1, h2⟩) (h3 | ⟨h3, h4⟩) <;> omega

theorem Timespec.leb_trans {a b c : Timespec}
    (h1 : a.leb b = true) (h2 : b.leb c = true) : a.leb c = true := by
  rw [Timespec.leb_iff] at h1 h2 ⊢
  rcases h1 with h1 | ⟨h1, h1n⟩ <;> rcases h2 with h2 | ⟨h2, h2n⟩ <;>
    [exact Or.inl (by omega); exact Or.inl (by omega);
     exact Or.inl (by omega); exact Or.inr (by omega)]

theorem Timespec.leb_ltb_trans {a b c : Timespec}
    (h1 : a.leb b = true) (h2 : b.ltb c = true) : a.ltb c = true := by
  rw [Timespec.leb_iff] at h1
  rw [Timespec.ltb_iff] at h2 ⊢
  rcases h1 with h1 | ⟨h1, h1n⟩ <;> rcases h2 with h2 | ⟨h2, h2n⟩ <;>
    [exact Or.inl (by omega); exact Or.inl (by omega);
     exact Or.inl (by omega); exact Or.inr (by omega)]

theorem Timespec.ltb_leb {a b : Timespec} (h : a.ltb b = true) :
    a.leb b = true := by
  rw [Timespec.ltb_iff] at h
  rw [Timespec.leb_iff]
  rcases h with h | ⟨h1, h2⟩
  · exact Or.inl h
  · exact Or.inr ⟨h1, by omega⟩

/-- The severity enum of `log_writer.hpp`.  Modelled from the spec: the
level is a "severity enum" rendered as a "string enum name". -/
inductive LogLevel where
  | error
  | warn
  | notice
  | info
  | debug
deriving DecidableEq, Repr

/-- Modelled from the spec: `format_log_level` renders the enum name. -/
def format_log_level : LogLevel → String
  | .error => "error"
  | .warn => "warn"
  | .notice => "notice"
  | .info => "info"
  | .debug => "debug"

/-- `log_message_t`: timestamp, uptime, level, message. -/
structure LogMessage where
  timestamp : Timespec
  uptime : Timespec
  level : LogLevel
  message : String
deriving DecidableEq, Repr

/-- `server_id_t`.  Modelled from the spec: a stable identity whose datum
encoding round-trips; we carry its canonical string encoding. -/
abbrev ServerId := String

/-- `peer_id_t`: opaque identifier of a live connection. -/
abbrev PeerId := Nat

/-- `log_server_business_card_t`: opaque mailbox handle. -/
abbrev BusinessCard := Nat

/-- `ql::datum_t`, restricted to the shapes this backend builds and
inspects.  `time` models the pseudo-time datum produced by
`ql::pseudo::make_time` (carrying the timespec and the timezone string);
`dur` models the plain number produced for durations. -/
inductive Datum where
  | null
  | str (s : String)
  | time (ts : Timespec) (tz : String)
  | dur (ts : Timespec)
  | arr (elems : List Datum)
  | obj (fields : List (String × Datum))

/-- `convert_timespec_to_datum`: builds a ReQL time datum with UTC
timezone.  Modelled from the spec: `make_time` is an excluded
value-encoding helper; we keep the exact timespec rather than the
floating-point `sec + nsec/1e9` value. -/
def convert_timespec_to_datum (t : Timespec) : Datum :=
  .time t "+00:00"

/-- `convert_timespec_duration_to_datum`: duration in seconds.  Modelled
from the spec, keeping the exact timespec rather than a float. -/
def convert_timespec_duration_to_datum (t : Timespec) : Datum :=
  .dur t

/-- List of characters of the decimal representation of a natural
number, most significant digit first. -/
def natChars (n : Nat) : List Char :=
  if n = 0 then [Char.ofNat 48] else ((Nat.digits 10 n).map Nat.digitChar).reverse

/-- Natural number denoted by a list of decimal digit characters. -/
def charsNat (l : List Char) : Nat :=
  Nat.ofDigits 10 ((l.map (fun c => c.toNat - 48)).reverse)

/-- Splits a character list at the first dot, returning the parts before
and after it; fails when no dot occurs. -/
def splitAtDot : List Char → Option (List Char × List Char)
  | [] => none
  | c :: rest =>
    if c = Char.ofNat 46 then some ([], rest)
    else (splitAtDot rest).map (fun p => (c :: p.1, p.2))

/-- Modelled from the spec: `format_time(ts, utc)`
(`rdb_protocol/pseudo_time`, not part of this translation unit) formats a
timestamp "as a UTC string with defined precision".  We abstract the
calendar rendering and keep the defining property: an injective decimal
rendering of seconds and nanoseconds with full precision. -/
def format_time (ts : Timespec) : String :=
  String.mk (natChars ts.tv_sec.toNat ++ Char.ofNat 46 :: natChars ts.tv_nsec.toNat)

/-- Modelled from the spec: `parse_time` (`rdb_protocol/pseudo_time`)
parses the formatted UTC timestamp string, failing on anything that is
not "a valid timestamp string". -/
def parse_time (s : String) : Option Timespec :=
  match splitAtDot s.toList with
  | none => none
  | some (a, b) =>
    if a ≠ [] ∧ b ≠ [] ∧ (a ++ b).all Char.isDigit then
      some ⟨(charsNat a : Int), (charsNat b : Int)⟩
    else none

/-- Modelled from the spec: `convert_server_id_to_datum` is an excluded
value-encoding helper producing the server id's canonical encoding. -/
def convert_server_id_to_datum (si : ServerId) : Datum :=
  .str si

/-- Modelled from the spec: `convert_server_id_from_datum` fails when the
datum "is not a valid server-id encoding". -/
def convert_server_id_from_datum : Datum → Option ServerId
  | .str s => some s
  | _ => none

/-- `convert_log_key_to_datum`: the primary key is the two-element array
`[format_time(ts, utc), server-id encoding]`. -/
def convert_log_key_to_datum (ts : Timespec) (si : ServerId) : Datum :=
  .arr [.str (format_time ts), convert_server_id_to_datum si]

/-- `convert_log_key_from_datum`: requires a two-element array whose first
element is a string parsing as a timestamp and whose second element is a
server-id encoding.  The C++ reports an `admin_err_t` on failure; its one
caller in this file discards that error, so failure is `none` here. -/
def convert_log_key_from_datum (d : Datum) : Option (Timespec × ServerId) :=
  match d with
  | .arr [a, b] =>
    match a with
    | .str s =>
      match parse_time s with
      | none => none
      | some ts =>
        match convert_server_id_from_datum b with
        | none => none
        | some si => some (ts, si)
    | _ => none
  | _ => none

/-- `convert_log_message_to_datum`: the row has fields `id`, `server`,
`timestamp`, `uptime`, `level`, `message`. -/
def convert_log_message_to_datum (msg : LogMessage) (server_id : ServerId)
    (server_datum : Datum) : Datum :=
  .obj [("id", convert_log_key_to_datum msg.timestamp server_id),
        ("server", server_datum),
        ("timestamp", convert_timespec_to_datum msg.timestamp),
        ("uptime", convert_timespec_duration_to_datum msg.uptime),
        ("level", .str (format_log_level msg.level)),
        ("message", .str msg.message)]

/-- Outcome of one `fetch_log_file` RPC.  Modelled from the spec:
`fetch(businessCard, maxEntries, minTime, maxTime, cancel)` returns the
entry list or throws `log_transfer_exc_t` (peer unreachable),
`log_read_exc_t` (log unreadable, with a message), or `interrupted_exc_t`
(cancellation). -/
inductive FetchResult where
  | ok (messages : List LogMessage)
  | transferExc
  | readExc (what : String)
  | interrupted

/-- `entries_per_server`: fixed cap on entries fetched per peer. -/
def entries_per_server : Nat := 1000

/-- External collaborators consulted by `read_row`, modelled from the
spec: `convert_connected_server_id_to_datum` (server datum and name when
the server is currently connected), the `server_config_client`'s
server-to-peer map, the directory's business-card lookup, and the
log-fetch RPC keyed by business card, entry cap and time range. -/
structure LookupEnv where
  connectedServer : ServerId → Option (Datum × String)
  serverToPeer : ServerId → Option PeerId
  directoryBcard : PeerId → Option BusinessCard
  fetch : BusinessCard → Nat → Timespec → Timespec → FetchResult

/-- Result of `read_row`: a present row, an absent row (`*row_out` left as
the uninitialized datum with `return true`), a fatal `admin_err_t`
(`return false`), or a propagated `interrupted_exc_t`. -/
inductive ReadRowResult where
  | ok (row : Option Datum)
  | err (msg : String)
  | interrupted

/-- Replaces the value bound to `k`, or appends the binding when absent:
`ql::datum_object_builder_t::overwrite`. -/
def overwriteField (fields : List (String × Datum)) (k : String) (v : Datum) :
    List (String × Datum) :=
  if fields.any (fun kv => kv.1 = k) then
    fields.map (fun kv => if kv.1 = k then (k, v) else kv)
  else fields ++ [(k, v)]

/-- `overwrite` on a datum: only object datums are rebuilt. -/
def Datum.overwrite : Datum → String → Datum → Datum
  | .obj fields, k, v => .obj (overwriteField fields k v)
  | d, _, _ => d

/-- `logs_artificial_table_backend_t::read_row`: decode the key, resolve
the server to a connected peer and its business card, fetch the entries at
exactly the requested instant, and classify the outcome. -/
def read_row (env : LookupEnv) (primary_key : Datum) : ReadRowResult :=
  match convert_log_key_from_datum primary_key with
  | none => .ok none
  | some (timestamp, server_id) =>
    match env.connectedServer server_id with
    | none => .ok none
    | some (server_datum, server_name) =>
      match env.serverToPeer server_id with
      | none => .ok none
      | some peer_id =>
        match env.directoryBcard peer_id with
        | none => .ok none
        | some bcard =>
          match env.fetch bcard entries_per_server timestamp timestamp with
          | .transferExc => .ok none
          | .interrupted => .interrupted
          | .readExc what =>
            .err ("Problem when reading log file on server `" ++ server_name
              ++ "`: " ++ what)
          | .ok messages =>
            match messages with
            | [] => .ok none
            | [msg] =>
              .ok (some ((convert_log_message_to_datum msg server_id
                server_datum).overwrite "id" primary_key))
            | _ :: _ :: _ =>
              .err ("Problem when reading log file on server `" ++ server_name
                ++ "`: Found multiple log entries with identical timestamps.")

/-- `logs_artificial_table_backend_t::write_row`: rejects every write with
the fixed read-only error, consulting no state. -/
def write_row (_primary_key : Datum) (_pkey_was_autogenerated : Bool)
    (_new_value : Option Datum) : Except String Unit :=
  .error "It's illegal to write to the `rethinkdb.logs` system table."

/-- `peer_type` of a directory entry: `SERVER_PEER` or another kind. -/
inductive PeerType where
  | server
  | other
deriving DecidableEq, Repr

/-- The slice of `cluster_directory_metadata_t` this backend reads: the
peer kind, the configured display name, the stable server id and the
log-access business card. -/
structure DirEntry where
  peer_type : PeerType
  name : String
  server_id : ServerId
  log_mailbox : BusinessCard

/-- `admin_identifier_format_t`: whether rows show names or ids. -/
inductive IdentifierFormat where
  | name
  | uuid
deriving DecidableEq, Repr

/-- Modelled from the spec: `convert_name_or_server_id_to_datum` renders
the name or the id according to the configured identifier format. -/
def convert_name_or_server_id_to_datum (name : String) (si : ServerId)
    (fmt : IdentifierFormat) : Datum :=
  match fmt with
  | .name => .str name
  | .uuid => convert_server_id_to_datum si

/-- One invocation of the `read_all_rows_raw` callback: the message plus
the peer, server id and rendered server name it came from. -/
structure CallbackCall where
  message : LogMessage
  peer : PeerId
  server_id : ServerId
  server_name_datum : Datum

/-- Accumulator of the snapshot fan-out: the first recorded read error and
the callback invocations so far. -/
structure ScanAcc where
  error : Option String
  calls : List CallbackCall

/-- The per-peer body of the `pmap` in `read_all_rows_raw`: interrupted
and transport errors contribute nothing; a read error is recorded
(modelled from the spec: the "first such error across all peers is
recorded", so a recorded error is kept); a successful fetch invokes
the callback once per message in fetched order. -/
def scanStep (fetch : BusinessCard → FetchResult) (fmt : IdentifierFormat)
    (acc : ScanAcc) (e : PeerId × DirEntry) : ScanAcc :=
  match fetch e.2.log_mailbox with
  | .interrupted => acc
  | .transferExc => acc
  | .readExc what =>
    match acc.error with
    | some _ => acc
    | none =>
      { acc with error := some ("Problem with reading log file on server `"
          ++ e.2.name ++ "`: " ++ what) }
  | .ok messages =>
    { acc with calls := acc.calls ++ messages.map (fun m =>
        ⟨m, e.1, e.2.server_id,
          convert_name_or_server_id_to_datum e.2.name e.2.server_id fmt⟩) }

/-- Result of a snapshot scan: success, the recorded read error
(`return false` with `*error_out`), or a thrown `interrupted_exc_t`. -/
inductive ScanResult where
  | ok
  | err (msg : String)
  | interrupted

/-- `logs_artificial_table_backend_t::read_all_rows_raw`: restrict the
directory to `SERVER_PEER` entries, fan out one fetch per peer, then check
the interruptor before reporting the recorded error, if any.
`interruptorPulsed` is whether the scan's cancel signal is pulsed by the
time all fetches complete. -/
def read_all_rows_raw (dir : List (PeerId × DirEntry))
    (fetch : BusinessCard → FetchResult) (fmt : IdentifierFormat)
    (interruptorPulsed : Bool) : List CallbackCall × ScanResult :=
  let servers := dir.filter (fun e => e.2.peer_type = PeerType.server)
  let acc := servers.foldl (scanStep fetch fmt) ⟨none, []⟩
  (acc.calls,
    if interruptorPulsed then .interrupted
    else
      match acc.error with
      | some e => .err e
      | none => .ok)

/-- The first read error, in fan-out order, among the given peers. -/
def first_read_error (fetch : BusinessCard → FetchResult) :
    List (PeerId × DirEntry) → Option String
  | [] => none
  | e :: rest =>
    match fetch e.2.log_mailbox with
    | .readExc what =>
      some ("Problem with reading log file on server `" ++ e.2.name
        ++ "`: " ++ what)
    | _ => first_read_error fetch rest

/-- The callback invocations contributed by the given peers: exactly the
messages of the successfully fetched ones, in fan-out order. -/
def successful_calls (fetch : BusinessCard → FetchResult)
    (fmt : IdentifierFormat) (servers : List (PeerId × DirEntry)) :
    List CallbackCall :=
  servers.flatMap (fun e =>
    match fetch e.2.log_mailbox with
    | .ok messages => messages.map (fun m =>
        ⟨m, e.1, e.2.server_id,
          convert_name_or_server_id_to_datum e.2.name e.2.server_id fmt⟩)
    | _ => [])

/-- One `send_all_change` notification: key, old value (absent for a new
log entry) and new value. -/
structure Change where
  key : Datum
  old_val : Option Datum
  new_val : Datum

/-- The body of the per-message loop in `cfeed_machinery_t::run`: a
message whose timestamp is not strictly greater than the low-water mark is
discarded; otherwise the low-water mark advances to its timestamp and a
row-changed notification (old value absent) is emitted. -/
def pollStep (server_id : ServerId) (server_datum : Datum)
    (acc : Timespec × List Change) (m : LogMessage) : Timespec × List Change :=
  if m.timestamp.leb acc.1 then acc
  else (m.timestamp,
    acc.2 ++ [⟨convert_log_key_to_datum m.timestamp server_id, none,
      convert_log_message_to_datum m server_id server_datum⟩])

/-- Processing of one fetched batch in `cfeed_machinery_t::run`'s polling
loop: the messages are visited in reverse of fetch order
(`messages.rbegin()` to `messages.rend()`), starting from the current
low-water mark `last_timestamp`. -/
def process_messages (server_id : ServerId) (server_datum : Datum)
    (last_timestamp : Timespec) (messages : List LogMessage) :
    Timespec × List Change :=
  messages.reverse.foldl (pollStep server_id server_datum) (last_timestamp, [])

/-- Phase of one `run()` coroutine: fetching the initial latest timestamp,
or polling for newer entries. -/
inductive WorkerPhase where
  | discovering
  | polling
deriving DecidableEq, Repr

/-- One live instance of `cfeed_machinery_t::run`, with the arguments it
was spawned with. -/
structure Worker where
  peer : PeerId
  server_id : ServerId
  bcard : BusinessCard
  is_a_starter : Bool
  phase : WorkerPhase
deriving DecidableEq, Repr

/-- The mutable state of `cfeed_machinery_t`, plus the multiset of live
`run()` instances. -/
structure MachineryState where
  peers_handled : Finset PeerId
  last_timestamps : PeerId → Option Timespec
  starting : Bool
  num_starters_left : Nat
  all_starters_done : Bool
  workers : List Worker

/-- The state of `cfeed_machinery_t` at the start of its constructor. -/
def initial_machinery_state : MachineryState :=
  { peers_handled := ∅
    last_timestamps := fun _ => none
    starting := true
    num_starters_left := 0
    all_starters_done := false
    workers := [] }

/-- `cfeed_machinery_t::on_change`: a null directory entry or an
already-handled peer is a no-op; otherwise the peer is inserted into
`peers_handled`, the starter count grows while `starting`, and an
instance of `run()` is spawned. -/
def on_change (st : MachineryState) (peer : PeerId) (dir : Option DirEntry) :
    MachineryState :=
  match dir with
  | none => st
  | some e =>
    if peer ∈ st.peers_handled then st
    else
      { st with
        peers_handled := insert peer st.peers_handled
        num_starters_left :=
          if st.starting then st.num_starters_left + 1 else st.num_starters_left
        workers := st.workers ++
          [⟨peer, e.server_id, e.log_mailbox, st.starting, .discovering⟩] }

/-- The tail of the `cfeed_machinery_t` constructor: `starting` is cleared
and, when no starter was spawned, `all_starters_done` is pulsed at once. -/
def construct_finish (st : MachineryState) : MachineryState :=
  let st2 := { st with starting := false }
  if st2.num_starters_left = 0 then { st2 with all_starters_done := true } else st2

/-- The whole `cfeed_machinery_t` constructor: the directory subscription
with `initial_call_t::YES` invokes `on_change` for every existing
directory entry, then the constructor body runs. -/
def cfeed_machinery_init (dir : List (PeerId × DirEntry)) : MachineryState :=
  construct_finish
    (dir.foldl (fun st e => on_change st e.1 (some e.2)) initial_machinery_state)

/-- The barrier decrement a starter performs on leaving its discovery
phase: `--num_starters_left; if (num_starters_left == 0) pulse;`. -/
def starter_done (st : MachineryState) : MachineryState :=
  { st with
    num_starters_left := st.num_starters_left - 1
    all_starters_done :=
      st.all_starters_done || decide (st.num_starters_left - 1 = 0) }

/-- The barrier decrement, performed only by starters. -/
def starter_barrier_dec (is_a_starter : Bool) (st : MachineryState) :
    MachineryState :=
  if is_a_starter then starter_done st else st

/-- `check_disconnected` firing during discovery: the peer is erased from
`peers_handled` in the same atomic step, and the `run()` instance exits
(its `last_timestamps` entry was never inserted). -/
def worker_exit_disc (st : MachineryState) (w : Worker) : MachineryState :=
  { st with
    peers_handled := st.peers_handled.erase w.peer
    workers := st.workers.erase w }

/-- A `run()` instance exiting from its polling phase (disconnection
detected, or the server name no longer resolvable): the peer is erased
from `peers_handled` and the `map_insertion_sentry_t` removes the peer's
`last_timestamps` entry as the coroutine unwinds. -/
def worker_exit_poll (st : MachineryState) (w : Worker) : MachineryState :=
  { st with
    peers_handled := st.peers_handled.erase w.peer
    last_timestamps := fun q => if q = w.peer then none else st.last_timestamps q
    workers := st.workers.erase w }

/-- Discovery succeeding: the worker records the fetched latest timestamp
in `last_timestamps` and enters the polling phase. -/
def phase_to_polling (st : MachineryState) (w : Worker) (ts : Timespec) :
    MachineryState :=
  { st with
    last_timestamps := fun q => if q = w.peer then some ts else st.last_timestamps q
    workers := st.workers.map (fun x => if x = w then { x with phase := .polling } else x) }

/-- A point update of the directory. -/
def dirUpdate (d : PeerId → Option DirEntry) (p : PeerId) (v : Option DirEntry) :
    PeerId → Option DirEntry :=
  fun q => if q = p then v else d q

/-- The events of the changefeed machinery, over a pair of the membership
directory and the machinery state.  Directory changes invoke `on_change`
atomically with the update (the `all_subs_t` subscription); worker events
require a live `run()` instance and mirror the bodies of `run()` and
`check_disconnected`. -/
inductive Step :
    (PeerId → Option DirEntry) × MachineryState →
    (PeerId → Option DirEntry) × MachineryState → Prop
  | connect (d : PeerId → Option DirEntry) (st : MachineryState)
      (p : PeerId) (e : DirEntry) :
      Step (d, st) (dirUpdate d p (some e), on_change st p (some e))
  | disconnect (d : PeerId → Option DirEntry) (st : MachineryState) (p : PeerId) :
      Step (d, st) (dirUpdate d p none, on_change st p none)
  | constructDone (d : PeerId → Option DirEntry) (st : MachineryState) :
      Step (d, st) (d, construct_finish st)
  | discoverGone (d : PeerId → Option DirEntry) (st : MachineryState)
      (w : Worker) (hw : w ∈ st.workers) (hph : w.phase = .discovering)
      (hd : d w.peer = none) :
      Step (d, st) (d, starter_barrier_dec w.is_a_starter (worker_exit_disc st w))
  | discoverOk (d : PeerId → Option DirEntry) (st : MachineryState)
      (w : Worker) (ts : Timespec) (hw : w ∈ st.workers)
      (hph : w.phase = .discovering) (hd : (d w.peer).isSome = true) :
      Step (d, st) (d, starter_barrier_dec w.is_a_starter (phase_to_polling st w ts))
  | pollGone (d : PeerId → Option DirEntry) (st : MachineryState)
      (w : Worker) (hw : w ∈ st.workers) (hph : w.phase = .polling)
      (hd : d w.peer = none) :
      Step (d, st) (d, worker_exit_poll st w)
  | pollResolveFail (d : PeerId → Option DirEntry) (st : MachineryState)
      (w : Worker) (hw : w ∈ st.workers) (hph : w.phase = .polling) :
      Step (d, st) (d, worker_exit_poll st w)
  | pollBatch (d : PeerId → Option DirEntry) (st : MachineryState)
      (w : Worker) (t1 : Timespec) (hw : w ∈ st.workers) (hph : w.phase = .polling) :
      Step (d, st)
        (d, { st with last_timestamps :=
          fun q => if q = w.peer then some t1 else st.last_timestamps q })

/-- States reachable from a freshly-constructed machinery with an empty
directory. -/
def Reachable (s : (PeerId → Option DirEntry) × MachineryState) : Prop :=
  Relation.ReflTransGen Step (fun _ => none, initial_machinery_state) s

/-- Number of live `run()` instances for a given peer. -/
def worker_count (st : MachineryState) (p : PeerId) : Nat :=
  (st.workers.filter (fun w => w.peer = p)).length

/-- The machinery's core invariant: the live workers have pairwise
distinct peers, and their peers are exactly `peers_handled`. -/
def WorkersInv (st : MachineryState) : Prop :=
  (st.workers.map Worker.peer).Nodup ∧
    ∀ p, p ∈ st.workers.map Worker.peer ↔ p ∈ st.peers_handled

/-- Accumulator of `cfeed_machinery_t::get_initial_values`: the
`last_timestamps` map shared with the workers, the initial result rows and
the notifications sent. -/
structure InitAcc where
  last_timestamps : PeerId → Option Timespec
  initial_values : List Datum
  changes : List Change

/-- The callback body of `get_initial_values`: every message's row is
appended to the initial values; a notification is sent, and the peer's
recorded timestamp advanced, only when the peer has a `last_timestamps`
entry strictly older than the message. -/
def get_initial_values_step (acc : InitAcc) (c : CallbackCall) : InitAcc :=
  let row := convert_log_message_to_datum c.message c.server_id c.server_name_datum
  let acc1 := { acc with initial_values := acc.initial_values ++ [row] }
  match acc.last_timestamps c.peer with
  | none => acc1
  | some t0 =>
    if t0.ltb c.message.timestamp then
      { acc1 with
        last_timestamps := fun q =>
          if q = c.peer then some c.message.timestamp else acc.last_timestamps q
        changes := acc1.changes ++
          [⟨convert_log_key_to_datum c.message.timestamp c.server_id, none, row⟩] }
    else acc1

/-- `cfeed_machinery_t::get_initial_values`, as a function of the callback
invocations delivered by `read_all_rows_raw`. -/
def get_initial_values (m : PeerId → Option Timespec)
    (calls : List CallbackCall) : InitAcc :=
  calls.foldl get_initial_values_step ⟨m, [], []⟩

/-! Lemmas about the decimal timestamp rendering. -/

theorem charVal_digitChar {d : Nat} (h : d < 10) :
    (Nat.digitChar d).toNat - 48 = d := by
  interval_cases d <;> rfl

theorem digitChar_isDigit {d : Nat} (h : d < 10) :
    (Nat.digitChar d).isDigit = true := by
  interval_cases d <;> rfl

theorem digitChar_ne_dot {d : Nat} (h : d < 10) :
    Nat.digitChar d ≠ Char.ofNat 46 := by
  interval_cases d <;> decide

theorem natChars_mem {n : Nat} {c : Char} (hc : c ∈ natChars n) :
    c.isDigit = true ∧ c ≠ Char.ofNat 46 := by
  unfold natChars at hc
  split at hc
  · simp only [List.mem_singleton] at hc
    subst hc
    exact ⟨by decide, by decide⟩
  · simp only [List.mem_reverse, List.mem_map] at hc
    obtain ⟨d, hd, rfl⟩ := hc
    have hlt : d < 10 := Nat.digits_lt_base (by norm_num) hd
    exact ⟨digitChar_isDigit hlt, digitChar_ne_dot hlt⟩

theorem natChars_ne_nil (n : Nat) : natChars n ≠ [] := by
  unfold natChars
  split
  · simp
  · simp only [ne_eq, List.reverse_eq_nil_iff, List.map_eq_nil_iff]
    exact Nat.digits_ne_nil_iff_ne_zero.mpr (by assumption)

theorem charsNat_natChars (n : Nat) : charsNat (natChars n) = n := by
  unfold charsNat natChars
  split
  · subst n
    decide
  · rw [List.map_reverse, List.reverse_reverse, List.map_map]
    have hmap : List.map ((fun c => c.toNat - 48) ∘ Nat.digitChar)
        (Nat.digits 10 n) = List.map id (Nat.digits 10 n) :=
      List.map_congr_left (fun d hd => by
        simpa using charVal_digitChar (Nat.digits_lt_base (by norm_num) hd))
    rw [hmap, List.map_id]
    exact Nat.ofDigits_digits 10 n

theorem splitAtDot_append {xs : List Char} (ys : List Char)
    (h : ∀ c ∈ xs, c ≠ Char.ofNat 46) :
    splitAtDot (xs ++ Char.ofNat 46 :: ys) = some (xs, ys) := by
  induction xs with
  | nil => simp [splitAtDot]
  | cons c cs ih =>
    have hc : c ≠ Char.ofNat 46 := h c (List.mem_cons_self c cs)
    simp only [List.cons_append, splitAtDot, if_neg hc]
    rw [List.append_eq, ih (fun x hx => h x (List.mem_cons_of_mem c hx))]
    rfl

theorem parse_time_format_time {ts : Timespec} (hs : 0 ≤ ts.tv_sec)
    (hn : 0 ≤ ts.tv_nsec) : parse_time (format_time ts) = some ts := by
  unfold parse_time format_time
  have htl : (String.mk (natChars ts.tv_sec.toNat ++
      Char.ofNat 46 :: natChars ts.tv_nsec.toNat)).toList =
      natChars ts.tv_sec.toNat ++ Char.ofNat 46 :: natChars ts.tv_nsec.toNat := rfl
  rw [htl, splitAtDot_append _ (fun c hc => (natChars_mem hc).2)]
  dsimp only
  have hdig : (natChars ts.tv_sec.toNat ++ natChars ts.tv_nsec.toNat).all
      Char.isDigit = true := by
    rw [List.all_eq_true]
    intro c hc
    rcases List.mem_append.mp hc with hc | hc
    · exact (natChars_mem hc).1
    · exact (natChars_mem hc).1
  rw [if_pos ⟨natChars_ne_nil _, natChars_ne_nil _, hdig⟩]
  rw [charsNat_natChars, charsNat_natChars, Int.toNat_of_nonneg hs,
    Int.toNat_of_nonneg hn]

/-- Claim C6: for every valid `(timestamp, serverId)` pair, decoding the
encoded primary key succeeds and returns exactly the original pair. -/
theorem logs_C6 (ts : Timespec) (si : ServerId) (hs : 0 ≤ ts.tv_sec)
    (hn : 0 ≤ ts.tv_nsec) :
    convert_log_key_from_datum (convert_log_key_to_datum ts si) =
      some (ts, si) := by
  simp only [convert_log_key_to_datum, convert_log_key_from_datum,
    convert_server_id_to_datum, convert_server_id_from_datum,
    parse_time_format_time hs hn]

/-- Witness for C6 at the concrete pair `(⟨5, 7⟩, "srv")`. -/
theorem logs_C6_witness :
    (0 : Int) ≤ (5 : Int) ∧ (0 : Int) ≤ (7 : Int) ∧
      convert_log_key_from_datum
        (convert_log_key_to_datum ⟨5, 7⟩ "srv") = some (⟨5, 7⟩, "srv") :=
  ⟨by decide, by decide, logs_C6 ⟨5, 7⟩ "srv" (by decide) (by decide)⟩

/-- Claim C7: every write attempt on the logs table fails with the one
fixed read-only-system-table error message, consulting no state. -/
theorem logs_C7 (pk : Datum) (autogen : Bool) (nv : Option Datum) :
    write_row pk autogen nv =
      Except.error "It's illegal to write to the `rethinkdb.logs` system table." :=
  rfl

/-- Claim C3: a point lookup returns "row absent" (success, no row) when
the key fails to decode, when the decoded server is unknown or
disconnected, when the server is missing from the directory (race), when
the peer disconnects during the fetch, and when the fetch returns zero
entries at the requested instant. -/
theorem logs_C3 (env : LookupEnv) (pk : Datum) :
    (convert_log_key_from_datum pk = none → read_row env pk = .ok none) ∧
    (∀ ts si, convert_log_key_from_datum pk = some (ts, si) →
      env.connectedServer si = none → read_row env pk = .ok none) ∧
    (∀ ts si sd name, convert_log_key_from_datum pk = some (ts, si) →
      env.connectedServer si = some (sd, name) →
      env.serverToPeer si = none → read_row env pk = .ok none) ∧
    (∀ ts si sd name pid, convert_log_key_from_datum pk = some (ts, si) →
      env.connectedServer si = some (sd, name) →
      env.serverToPeer si = some pid →
      env.directoryBcard pid = none → read_row env pk = .ok none) ∧
    (∀ ts si sd name pid bc, convert_log_key_from_datum pk = some (ts, si) →
      env.connectedServer si = some (sd, name) →
      env.serverToPeer si = some pid →
      env.directoryBcard pid = some bc →
      env.fetch bc entries_per_server ts ts = .transferExc →
      read_row env pk = .ok none) ∧
    (∀ ts si sd name pid bc, convert_log_key_from_datum pk = some (ts, si) →
      env.connectedServer si = some (sd, name) →
      env.serverToPeer si = some pid →
      env.directoryBcard pid = some bc →
      env.fetch bc entries_per_server ts ts = .ok [] →
      read_row env pk = .ok none) := by
  refine ⟨?_, ?_, ?_, ?_, ?_, ?_⟩
  · intro h
    simp [read_row, h]
  · intro ts si h1 h2
    simp [read_row, h1, h2]
  · intro ts si sd name h1 h2 h3
    simp [read_row, h1, h2, h3]
  · intro ts si sd name pid h1 h2 h3 h4
    simp [read_row, h1, h2, h3, h4]
  · intro ts si sd name pid bc h1 h2 h3 h4 h5
    simp [read_row, h1, h2, h3, h4, h5]
  · intro ts si sd name pid bc h1 h2 h3 h4 h5
    simp [read_row, h1, h2, h3, h4, h5]

/-- Witness for C3: a malformed key is "row absent" in a concrete
environment. -/
theorem logs_C3_witness :
    convert_log_key_from_datum Datum.null = none ∧
      read_row
        ⟨fun _ => none, fun _ => none, fun _ => none, fun _ _ _ _ => .ok []⟩
        Datum.null = .ok none :=
  ⟨rfl, (logs_C3 ⟨fun _ => none, fun _ => none, fun _ => none,
    fun _ _ _ _ => .ok []⟩ Datum.null).1 rfl⟩

/-- Claim C4: a point lookup surfaces a fatal error exactly when the
lookup reaches the fetch and the fetch either raises a read error or
returns two or more entries; every other outcome is not a fatal error. -/
theorem logs_C4 (env : LookupEnv) (pk : Datum) :
    (∃ e, read_row env pk = .err e) ↔
      ∃ ts si sd name pid bc,
        convert_log_key_from_datum pk = some (ts, si) ∧
        env.connectedServer si = some (sd, name) ∧
        env.serverToPeer si = some pid ∧
        env.directoryBcard pid = some bc ∧
        ((∃ w, env.fetch bc entries_per_server ts ts = .readExc w) ∨
          ∃ msgs, env.fetch bc entries_per_server ts ts = .ok msgs ∧
            2 ≤ msgs.length) := by
  cases hdec : convert_log_key_from_datum pk with
  | none => simp [read_row, hdec]
  | some p =>
    obtain ⟨ts, si⟩ := p
    cases hcs : env.connectedServer si with
    | none => simp [read_row, hdec, hcs]
    | some q =>
      obtain ⟨sd, name⟩ := q
      cases hsp : env.serverToPeer si with
      | none => simp [read_row, hdec, hcs, hsp]
      | some pid =>
        cases hbc : env.directoryBcard pid with
        | none => simp [read_row, hdec, hcs, hsp, hbc]
        | some bc =>
          cases hf : env.fetch bc entries_per_server ts ts with
          | transferExc => simp [read_row, hdec, hcs, hsp, hbc, hf]
          | interrupted => simp [read_row, hdec, hcs, hsp, hbc, hf]
          | readExc w =>
            have hr : read_row env pk =
                .err ("Problem when reading log file on server `" ++ name
                  ++ "`: " ++ w) := by
              simp [read_row, hdec, hcs, hsp, hbc, hf]
            constructor
            · intro _
              exact ⟨ts, si, sd, name, pid, bc, rfl, hcs, hsp, hbc,
                Or.inl ⟨w, hf⟩⟩
            · intro _
              exact ⟨_, hr⟩
          | ok messages =>
            match messages with
            | [] => simp [read_row, hdec, hcs, hsp, hbc, hf]
            | [m] => simp [read_row, hdec, hcs, hsp, hbc, hf]
            | m1 :: m2 :: rest =>
              have hr : read_row env pk =
                  .err ("Problem when reading log file on server `" ++ name
                    ++ "`: Found multiple log entries with identical timestamps.") := by
                simp [read_row, hdec, hcs, hsp, hbc, hf]
              constructor
              · intro _
                refine ⟨ts, si, sd, name, pid, bc, rfl, hcs, hsp, hbc,
                  Or.inr ⟨m1 :: m2 :: rest, hf, ?_⟩⟩
                simp only [List.length_cons]
                omega
              · intro _
                exact ⟨_, hr⟩

/-- Witness for C4: a read error on the fetch is surfaced as a fatal
error in a concrete environment. -/
theorem logs_C4_witness :
    ∃ e, read_row
      ⟨fun _ => some (Datum.str "a", "a"), fun _ => some 0, fun _ => some 0,
        fun _ _ _ _ => .readExc "boom"⟩
      (Datum.arr [Datum.str "5.7", Datum.str "srv"]) = .err e :=
  (logs_C4 ⟨fun _ => some (Datum.str "a", "a"), fun _ => some 0, fun _ => some 0,
      fun _ _ _ _ => .readExc "boom"⟩
    (Datum.arr [Datum.str "5.7", Datum.str "srv"])).mpr
    ⟨⟨5, 7⟩, "srv", Datum.str "a", "a", 0, 0, rfl, rfl, rfl, rfl,
      Or.inl ⟨"boom", rfl⟩⟩

/-- Claim C5: a point lookup that finds exactly one matching entry
returns that entry's row, whose `id` field is the originally requested
primary key verbatim and whose other fields are the entry's encoding. -/
theorem logs_C5 (env : LookupEnv) (pk : Datum) (ts : Timespec)
    (si : ServerId) (sd : Datum) (name : String) (pid : PeerId)
    (bc : BusinessCard) (msg : LogMessage)
    (h1 : convert_log_key_from_datum pk = some (ts, si))
    (h2 : env.connectedServer si = some (sd, name))
    (h3 : env.serverToPeer si = some pid)
    (h4 : env.directoryBcard pid = some bc)
    (h5 : env.fetch bc entries_per_server ts ts = .ok [msg]) :
    read_row env pk = .ok (some (.obj
      [("id", pk),
       ("server", sd),
       ("timestamp", convert_timespec_to_datum msg.timestamp),
       ("uptime", convert_timespec_duration_to_datum msg.uptime),
       ("level", .str (format_log_level msg.level)),
       ("message", .str msg.message)])) := by
  simp [read_row, h1, h2, h3, h4, h5, convert_log_message_to_datum,
    Datum.overwrite, overwriteField]

/-- Witness for C5 at a concrete environment and entry. -/
theorem logs_C5_witness :
    read_row
      ⟨fun _ => some (Datum.str "a", "a"), fun _ => some 0, fun _ => some 0,
        fun _ _ _ _ => .ok [⟨⟨5, 7⟩, ⟨1, 0⟩, .info, "hello"⟩]⟩
      (Datum.arr [Datum.str "5.7", Datum.str "srv"]) =
      .ok (some (.obj
        [("id", Datum.arr [Datum.str "5.7", Datum.str "srv"]),
         ("server", Datum.str "a"),
         ("timestamp", convert_timespec_to_datum ⟨5, 7⟩),
         ("uptime", convert_timespec_duration_to_datum ⟨1, 0⟩),
         ("level", Datum.str (format_log_level .info)),
         ("message", Datum.str "hello")])) :=
  logs_C5 ⟨fun _ => some (Datum.str "a", "a"), fun _ => some 0, fun _ => some 0,
      fun _ _ _ _ => .ok [⟨⟨5, 7⟩, ⟨1, 0⟩, .info, "hello"⟩]⟩
    (Datum.arr [Datum.str "5.7", Datum.str "srv"]) ⟨5, 7⟩ "srv"
    (Datum.str "a") "a" 0 0 ⟨⟨5, 7⟩, ⟨1, 0⟩, .info, "hello"⟩
    rfl rfl rfl rfl rfl

/-! Reference recursions describing what a polling batch emits. -/

/-- The messages a batch processing emits, visiting the given list in
order with the given low-water mark. -/
def picked_messages (lwm : Timespec) : List LogMessage → List LogMessage
  | [] => []
  | m :: ms =>
    if m.timestamp.leb lwm then picked_messages lwm ms
    else m :: picked_messages m.timestamp ms

/-- The low-water mark after a batch processing. -/
def last_ts (lwm : Timespec) : List LogMessage → Timespec
  | [] => lwm
  | m :: ms =>
    if m.timestamp.leb lwm then last_ts lwm ms else last_ts m.timestamp ms

/-- The notification the polling loop emits for one message. -/
def mkChange (server_id : ServerId) (server_datum : Datum) (m : LogMessage) :
    Change :=
  ⟨convert_log_key_to_datum m.timestamp server_id, none,
    convert_log_message_to_datum m server_id server_datum⟩

theorem pollFold_eq (server_id : ServerId) (server_datum : Datum) :
    ∀ (ms : List LogMessage) (lwm : Timespec) (cs : List Change),
      ms.foldl (pollStep server_id server_datum) (lwm, cs) =
        (last_ts lwm ms,
          cs ++ (picked_messages lwm ms).map (mkChange server_id server_datum)) := by
  intro ms
  induction ms with
  | nil => intro lwm cs; simp [last_ts, picked_messages]
  | cons m ms ih =>
    intro lwm cs
    by_cases h : m.timestamp.leb lwm = true
    · simp only [List.foldl_cons, pollStep, if_pos h, last_ts, picked_messages,
        ih lwm cs]
    · rw [Bool.not_eq_true] at h
      rw [List.foldl_cons]
      have hstep : pollStep server_id server_datum (lwm, cs) m =
          (m.timestamp, cs ++ [mkChange server_id server_datum m]) := by
        simp only [pollStep, mkChange]
        rw [if_neg (by simp [h])]
      rw [hstep, ih m.timestamp (cs ++ [mkChange server_id server_datum m])]
      simp only [last_ts, picked_messages]
      rw [if_neg (by simp [h]), if_neg (by simp [h])]
      simp

theorem picked_messages_gt :
    ∀ (ms : List LogMessage) (lwm : Timespec) (x : LogMessage),
      x ∈ picked_messages lwm ms → lwm.ltb x.timestamp = true := by
  intro ms
  induction ms with
  | nil => intro lwm x hx; simp [picked_messages] at hx
  | cons m ms ih =>
    intro lwm x hx
    by_cases h : m.timestamp.leb lwm = true
    · rw [picked_messages, if_pos h] at hx
      exact ih lwm x hx
    · rw [picked_messages, if_neg h] at hx
      rw [Bool.not_eq_true, Timespec.not_leb_iff_ltb] at h
      rcases List.mem_cons.mp hx with rfl | hx
      · exact h
      · exact Timespec.leb_ltb_trans (Timespec.ltb_leb h) (ih m.timestamp x hx)

theorem picked_messages_pairwise :
    ∀ (ms : List LogMessage) (lwm : Timespec),
      (picked_messages lwm ms).Pairwise
        (fun a b => a.timestamp.ltb b.timestamp = true) := by
  intro ms
  induction ms with
  | nil => intro lwm; simp [picked_messages]
  | cons m ms ih =>
    intro lwm
    by_cases h : m.timestamp.leb lwm = true
    · rw [picked_messages, if_pos h]
      exact ih lwm
    · rw [picked_messages, if_neg h]
      exact List.Pairwise.cons
        (fun x hx => picked_messages_gt ms m.timestamp x hx) (ih m.timestamp)

theorem picked_messages_sublist :
    ∀ (ms : List LogMessage) (lwm : Timespec),
      (picked_messages lwm ms).Sublist ms := by
  intro ms
  induction ms with
  | nil => intro lwm; simp [picked_messages]
  | cons m ms ih =>
    intro lwm
    by_cases h : m.timestamp.leb lwm = true
    · rw [picked_messages, if_pos h]
      exact (ih lwm).trans (List.sublist_cons_self m ms)
    · rw [picked_messages, if_neg h]
      exact List.Sublist.cons₂ m (ih m.timestamp)

theorem last_ts_ge :
    ∀ (ms : List LogMessage) (lwm : Timespec),
      lwm.leb (last_ts lwm ms) = true ∧
        ∀ m ∈ ms, m.timestamp.leb (last_ts lwm ms) = true := by
  intro ms
  induction ms with
  | nil => intro lwm; exact ⟨Timespec.leb_refl lwm, by simp⟩
  | cons m ms ih =>
    intro lwm
    by_cases h : m.timestamp.leb lwm = true
    · rw [last_ts, if_pos h]
      refine ⟨(ih lwm).1, ?_⟩
      intro x hx
      rcases List.mem_cons.mp hx with rfl | hx
      · exact Timespec.leb_trans h (ih lwm).1
      · exact (ih lwm).2 x hx
    · rw [last_ts, if_neg h]
      rw [Bool.not_eq_true, Timespec.not_leb_iff_ltb] at h
      refine ⟨Timespec.leb_trans (Timespec.ltb_leb h) (ih m.timestamp).1, ?_⟩
      intro x hx
      rcases List.mem_cons.mp hx with rfl | hx
      · exact (ih x.timestamp).1
      · exact (ih m.timestamp).2 x hx

theorem picked_messages_of_le {ms : List LogMessage} {lwm : Timespec}
    (h : ∀ m ∈ ms, m.timestamp.leb lwm = true) :
    picked_messages lwm ms = [] ∧ last_ts lwm ms = lwm := by
  induction ms with
  | nil => exact ⟨rfl, rfl⟩
  | cons m ms ih =>
    have hm := h m (List.mem_cons_self m ms)
    rw [picked_messages, if_pos hm, last_ts, if_pos hm]
    exact ih (fun x hx => h x (List.mem_cons_of_mem m hx))

/-- Claim C1: with low-water mark `t0 < t1` and a batch fetched
newest-first with timestamps `t1 < t2 < t3`, the polling loop emits
exactly the three notifications in order `t1, t2, t3`, each with old
value absent, and leaves the low-water mark at `t3`; re-processing the
identical batch emits nothing.  In general the emitted notifications are
the image of a strictly-increasing-timestamp sublist of the batch (each
entry at most once), and re-processing any batch from the resulting
low-water mark emits zero notifications. -/
theorem logs_C1 (server_id : ServerId) (server_datum : Datum)
    (t0 : Timespec) (m1 m2 m3 : LogMessage)
    (h1 : t0.ltb m1.timestamp = true)
    (h2 : m1.timestamp.ltb m2.timestamp = true)
    (h3 : m2.timestamp.ltb m3.timestamp = true) :
    process_messages server_id server_datum t0 [m3, m2, m1] =
      (m3.timestamp,
        [mkChange server_id server_datum m1,
         mkChange server_id server_datum m2,
         mkChange server_id server_datum m3]) ∧
    (∀ m, (mkChange server_id server_datum m).old_val = none) ∧
    process_messages server_id server_datum m3.timestamp [m3, m2, m1] =
      (m3.timestamp, []) ∧
    (∀ (lwm : Timespec) (msgs : List LogMessage),
      (process_messages server_id server_datum lwm msgs).2 =
        (picked_messages lwm msgs.reverse).map
          (mkChange server_id server_datum) ∧
      (picked_messages lwm msgs.reverse).Pairwise
        (fun a b => a.timestamp.ltb b.timestamp = true) ∧
      (picked_messages lwm msgs.reverse).Sublist msgs.reverse ∧
      (process_messages server_id server_datum
        (process_messages server_id server_datum lwm msgs).1 msgs).2 = []) := by
  have e1 : m1.timestamp.leb t0 = false := Timespec.not_leb_iff_ltb.mpr h1
  have e2 : m2.timestamp.leb m1.timestamp = false := Timespec.not_leb_iff_ltb.mpr h2
  have e3 : m3.timestamp.leb m2.timestamp = false := Timespec.not_leb_iff_ltb.mpr h3
  have f1 : m1.timestamp.leb m3.timestamp = true :=
    Timespec.ltb_leb (Timespec.leb_ltb_trans (Timespec.ltb_leb h2) h3)
  have f2 : m2.timestamp.leb m3.timestamp = true := Timespec.ltb_leb h3
  have f3 : m3.timestamp.leb m3.timestamp = true := Timespec.leb_refl _
  refine ⟨?_, fun m => rfl, ?_, ?_⟩
  · simp [process_messages, pollStep, e1, e2, e3, mkChange]
  · simp [process_messages, pollStep, f1, f2, f3]
  · intro lwm msgs
    refine ⟨?_, picked_messages_pairwise _ _, picked_messages_sublist _ _, ?_⟩
    · rw [process_messages, pollFold_eq]
      simp
    · rw [process_messages, pollFold_eq, process_messages, pollFold_eq]
      have hall := (last_ts_ge msgs.reverse lwm).2
      rcases picked_messages_of_le hall with ⟨hp, _⟩
      simp [hp]

/-- Witness for C1 at concrete timestamps `0 < 1 < 2 < 3`. -/
theorem logs_C1_witness :
    Timespec.ltb ⟨0, 0⟩ ⟨1, 0⟩ = true ∧
      process_messages "srv" Datum.null ⟨0, 0⟩
        [⟨⟨3, 0⟩, ⟨1, 0⟩, .info, "c"⟩, ⟨⟨2, 0⟩, ⟨1, 0⟩, .info, "b"⟩,
         ⟨⟨1, 0⟩, ⟨1, 0⟩, .info, "a"⟩] =
      (⟨3, 0⟩,
        [mkChange "srv" Datum.null ⟨⟨1, 0⟩, ⟨1, 0⟩, .info, "a"⟩,
         mkChange "srv" Datum.null ⟨⟨2, 0⟩, ⟨1, 0⟩, .info, "b"⟩,
         mkChange "srv" Datum.null ⟨⟨3, 0⟩, ⟨1, 0⟩, .info, "c"⟩]) :=
  ⟨by decide,
    (logs_C1 "srv" Datum.null ⟨0, 0⟩ ⟨⟨1, 0⟩, ⟨1, 0⟩, .info, "a"⟩
      ⟨⟨2, 0⟩, ⟨1, 0⟩, .info, "b"⟩ ⟨⟨3, 0⟩, ⟨1, 0⟩, .info, "c"⟩
      (by decide) (by decide) (by decide)).1⟩

theorem scanFold_eq (fetch : BusinessCard → FetchResult) (fmt : IdentifierFormat) :
    ∀ (servers : List (PeerId × DirEntry)) (acc : ScanAcc),
      servers.foldl (scanStep fetch fmt) acc =
        ⟨match acc.error with
          | some e => some e
          | none => first_read_error fetch servers,
         acc.calls ++ successful_calls fetch fmt servers⟩ := by
  intro servers
  induction servers with
  | nil =>
    intro acc
    cases acc with
    | mk error calls =>
      cases error <;> simp [first_read_error, successful_calls]
  | cons e rest ih =>
    intro acc
    rw [List.foldl_cons, ih]
    cases hf : fetch e.2.log_mailbox with
    | ok messages =>
      cases acc with
      | mk error calls =>
        cases error <;>
          simp [scanStep, hf, first_read_error, successful_calls]
    | transferExc =>
      cases acc with
      | mk error calls =>
        cases error <;>
          simp [scanStep, hf, first_read_error, successful_calls]
    | readExc what =>
      cases acc with
      | mk error calls =>
        cases error <;>
          simp [scanStep, hf, first_read_error, successful_calls]
    | interrupted =>
      cases acc with
      | mk error calls =>
        cases error <;>
          simp [scanStep, hf, first_read_error, successful_calls]

/-- Claim C2: a snapshot scan delivers exactly the successfully fetched
peers' entries (transport-error peers contribute no rows and no error);
a pulsed cancel signal is reported as cancellation regardless of read
errors; otherwise the first read error across the fan-out, if any, is the
scan's error. -/
theorem logs_C2 (dir : List (PeerId × DirEntry))
    (fetch : BusinessCard → FetchResult) (fmt : IdentifierFormat)
    (pulsed : Bool) :
    (read_all_rows_raw dir fetch fmt pulsed).1 =
      successful_calls fetch fmt
        (dir.filter (fun e => e.2.peer_type = PeerType.server)) ∧
    (pulsed = true → (read_all_rows_raw dir fetch fmt pulsed).2 = .interrupted) ∧
    (pulsed = false → ∀ e,
      first_read_error fetch
        (dir.filter (fun e => e.2.peer_type = PeerType.server)) = some e →
      (read_all_rows_raw dir fetch fmt pulsed).2 = .err e) ∧
    (pulsed = false →
      first_read_error fetch
        (dir.filter (fun e => e.2.peer_type = PeerType.server)) = none →
      (read_all_rows_raw dir fetch fmt pulsed).2 = .ok) := by
  refine ⟨?_, ?_, ?_, ?_⟩
  · simp [read_all_rows_raw, scanFold_eq]
  · intro hp
    simp [read_all_rows_raw, scanFold_eq, hp]
  · intro hp e he
    simp [read_all_rows_raw, scanFold_eq, hp, he]
  · intro hp he
    simp [read_all_rows_raw, scanFold_eq, hp, he]

/-- Witness for C2: the spec's scenario of two connected servers, one
with a read failure and one fetching successfully. -/
theorem logs_C2_witness :
    (read_all_rows_raw
        [(0, ⟨.server, "a", "sa", 0⟩), (1, ⟨.server, "b", "sb", 1⟩)]
        (fun bc => if bc = 0 then .readExc "boom"
          else .ok [⟨⟨1, 0⟩, ⟨1, 0⟩, .info, "x"⟩])
        .uuid false).1 =
      successful_calls
        (fun bc => if bc = 0 then .readExc "boom"
          else .ok [⟨⟨1, 0⟩, ⟨1, 0⟩, .info, "x"⟩]) .uuid
        ([(0, ⟨.server, "a", "sa", 0⟩), (1, ⟨.server, "b", "sb", 1⟩)].filter
          (fun e => e.2.peer_type = PeerType.server)) ∧
    (read_all_rows_raw
        [(0, ⟨.server, "a", "sa", 0⟩), (1, ⟨.server, "b", "sb", 1⟩)]
        (fun bc => if bc = 0 then .readExc "boom"
          else .ok [⟨⟨1, 0⟩, ⟨1, 0⟩, .info, "x"⟩])
        .uuid false).2 =
      .err "Problem with reading log file on server `a`: boom" :=
  ⟨(logs_C2 [(0, ⟨.server, "a", "sa", 0⟩), (1, ⟨.server, "b", "sb", 1⟩)]
      (fun bc => if bc = 0 then .readExc "boom"
        else .ok [⟨⟨1, 0⟩, ⟨1, 0⟩, .info, "x"⟩]) .uuid false).1,
   (logs_C2 [(0, ⟨.server, "a", "sa", 0⟩), (1, ⟨.server, "b", "sb", 1⟩)]
      (fun bc => if bc = 0 then .readExc "boom"
        else .ok [⟨⟨1, 0⟩, ⟨1, 0⟩, .info, "x"⟩]) .uuid false).2.2.1 rfl
     "Problem with reading log file on server `a`: boom" rfl⟩

theorem on_change_all_starters_done (st : MachineryState) (p : PeerId)
    (d : Option DirEntry) :
    (on_change st p d).all_starters_done = st.all_starters_done := by
  cases d with
  | none => rfl
  | some e =>
    simp only [on_change]
    split <;> rfl

theorem on_change_fold_all_starters_done (dir : List (PeerId × DirEntry)) :
    ∀ st : MachineryState,
      (dir.foldl (fun st e => on_change st e.1 (some e.2)) st).all_starters_done =
        st.all_starters_done := by
  induction dir with
  | nil => intro st; rfl
  | cons e rest ih =>
    intro st
    rw [List.foldl_cons, ih, on_change_all_starters_done]

/-- Claim C8: constructing the changefeed machinery over an empty
directory pulses `all_starters_done` by the end of construction without
spawning any worker; in general the constructor pulses it exactly when
the starter count is zero, and a starter's decrement pulses it exactly
when it drops the count to zero. -/
theorem logs_C8 :
    (cfeed_machinery_init []).all_starters_done = true ∧
    (cfeed_machinery_init []).workers = [] ∧
    (∀ dir, (cfeed_machinery_init dir).all_starters_done =
      decide ((cfeed_machinery_init dir).num_starters_left = 0)) ∧
    (∀ st : MachineryState, st.all_starters_done = false →
      0 < st.num_starters_left →
      ((starter_done st).all_starters_done = true ↔
        st.num_starters_left = 1)) := by
  refine ⟨rfl, rfl, ?_, ?_⟩
  · intro dir
    unfold cfeed_machinery_init construct_finish
    have hd := on_change_fold_all_starters_done dir initial_machinery_state
    dsimp only
    by_cases hz : (List.foldl (fun st e => on_change st e.1 (some e.2))
        initial_machinery_state dir).num_starters_left = 0
    · rw [if_pos hz]
      simp [hz]
    · rw [if_neg hz, hd]
      have hdec : decide ((List.foldl (fun st e => on_change st e.1 (some e.2))
          initial_machinery_state dir).num_starters_left = 0) = false :=
        decide_eq_false hz
      rw [hdec]
      rfl
  · intro st hdone hpos
    simp only [starter_done, hdone, Bool.false_or, decide_eq_true_eq]
    omega

/-- Witness for C8: the last starter's decrement pulses the barrier. -/
theorem logs_C8_witness :
    ((starter_done ⟨∅, fun _ => none, false, 1, false, []⟩).all_starters_done
      = true ↔
      MachineryState.num_starters_left ⟨∅, fun _ => none, false, 1, false, []⟩ = 1) :=
  logs_C8.2.2.2 ⟨∅, fun _ => none, false, 1, false, []⟩ rfl (by decide)

theorem erase_map_peer {l : List Worker} {w : Worker} (hw : w ∈ l)
    (hnd : (l.map Worker.peer).Nodup) (p : PeerId) :
    p ∈ (l.erase w).map Worker.peer ↔
      p ∈ l.map Worker.peer ∧ p ≠ w.peer := by
  induction l with
  | nil => cases hw
  | cons x xs ih =>
    simp only [List.map_cons, List.nodup_cons] at hnd
    by_cases hx : x = w
    · subst hx
      rw [List.erase_cons_head]
      constructor
      · intro hp
        refine ⟨List.mem_cons_of_mem _ hp, ?_⟩
        intro hpe
        subst hpe
        exact hnd.1 hp
      · rintro ⟨hp, hne⟩
        rcases List.mem_cons.mp hp with h | h
        · exact absurd h hne
        · exact h
    · have hw2 : w ∈ xs := by
        rcases List.mem_cons.mp hw with h | h
        · exact absurd h.symm hx
        · exact h
      have hxw : x.peer ≠ w.peer := by
        intro hh
        exact hnd.1 (hh ▸ List.mem_map_of_mem Worker.peer hw2)
      rw [List.erase_cons_tail (by simp [hx])]
      simp only [List.map_cons, List.mem_cons, ih hw2 hnd.2]
      constructor
      · rintro (h | ⟨h, hne⟩)
        · exact ⟨Or.inl h, h ▸ hxw⟩
        · exact ⟨Or.inr h, hne⟩
      · rintro ⟨h | h, hne⟩
        · exact Or.inl h
        · exact Or.inr ⟨h, hne⟩

theorem on_change_inv {st : MachineryState} (h : WorkersInv st)
    (p : PeerId) (d : Option DirEntry) : WorkersInv (on_change st p d) := by
  cases d with
  | none => exact h
  | some e =>
    by_cases hp : p ∈ st.peers_handled
    · rw [on_change, if_pos hp]
      exact h
    · have hpw : p ∉ st.workers.map Worker.peer := fun hh => hp ((h.2 p).mp hh)
      rw [on_change, if_neg hp]
      constructor
      · simp only [List.map_append, List.map_cons, List.map_nil]
        rw [List.nodup_append]
        refine ⟨h.1, List.nodup_singleton _, ?_⟩
        intro q hq hq2
        simp only [List.mem_singleton] at hq2
        subst hq2
        exact hpw hq
      · intro q
        simp only [List.map_append, List.map_cons, List.map_nil,
          List.mem_append, List.mem_singleton, Finset.mem_insert, h.2 q]
        tauto

theorem worker_exit_fields_inv {st : MachineryState} {w : Worker}
    (h : WorkersInv st) (hw : w ∈ st.workers) :
    ((st.workers.erase w).map Worker.peer).Nodup ∧
      ∀ p, p ∈ (st.workers.erase w).map Worker.peer ↔
        p ∈ st.peers_handled.erase w.peer := by
  constructor
  · exact List.Nodup.sublist (List.Sublist.map _ (List.erase_sublist w _)) h.1
  · intro p
    rw [erase_map_peer hw h.1 p, Finset.mem_erase, h.2 p]
    tauto

theorem worker_exit_disc_inv {st : MachineryState} {w : Worker}
    (h : WorkersInv st) (hw : w ∈ st.workers) :
    WorkersInv (worker_exit_disc st w) :=
  ⟨(worker_exit_fields_inv h hw).1, (worker_exit_fields_inv h hw).2⟩

theorem worker_exit_poll_inv {st : MachineryState} {w : Worker}
    (h : WorkersInv st) (hw : w ∈ st.workers) :
    WorkersInv (worker_exit_poll st w) :=
  ⟨(worker_exit_fields_inv h hw).1, (worker_exit_fields_inv h hw).2⟩

theorem starter_barrier_dec_workers (b : Bool) (st : MachineryState) :
    (starter_barrier_dec b st).workers = st.workers := by
  cases b <;> rfl

theorem starter_barrier_dec_peers (b : Bool) (st : MachineryState) :
    (starter_barrier_dec b st).peers_handled = st.peers_handled := by
  cases b <;> rfl

theorem starter_barrier_dec_inv {st : MachineryState} (h : WorkersInv st)
    (b : Bool) : WorkersInv (starter_barrier_dec b st) := by
  unfold WorkersInv
  rw [starter_barrier_dec_workers, starter_barrier_dec_peers]
  exact h

theorem phase_to_polling_inv {st : MachineryState} (h : WorkersInv st)
    (w : Worker) (ts : Timespec) : WorkersInv (phase_to_polling st w ts) := by
  have hmap : (st.workers.map
      (fun x => if x = w then { x with phase := WorkerPhase.polling } else x)).map
        Worker.peer = st.workers.map Worker.peer := by
    rw [List.map_map]
    refine List.map_congr_left (fun x _ => ?_)
    by_cases hx : x = w <;> simp [hx]
  unfold WorkersInv phase_to_polling
  simp only [hmap]
  exact h

theorem construct_finish_inv {st : MachineryState} (h : WorkersInv st) :
    WorkersInv (construct_finish st) := by
  unfold WorkersInv construct_finish
  dsimp only
  split <;> exact h

theorem step_inv {s t : (PeerId → Option DirEntry) × MachineryState}
    (hstep : Step s t) (h : WorkersInv s.2) : WorkersInv t.2 := by
  cases hstep with
  | connect d st p e => exact on_change_inv h p (some e)
  | disconnect d st p => exact on_change_inv h p none
  | constructDone d st => exact construct_finish_inv h
  | discoverGone d st w hw hph hd =>
    exact starter_barrier_dec_inv (worker_exit_disc_inv h hw) _
  | discoverOk d st w ts hw hph hd =>
    exact starter_barrier_dec_inv (phase_to_polling_inv h w ts) _
  | pollGone d st w hw hph hd => exact worker_exit_poll_inv h hw
  | pollResolveFail d st w hw hph => exact worker_exit_poll_inv h hw
  | pollBatch d st w t1 hw hph => exact h

theorem reachable_inv {s : (PeerId → Option DirEntry) × MachineryState}
    (h : Reachable s) : WorkersInv s.2 := by
  induction h with
  | refl =>
    exact ⟨List.nodup_nil, by simp [initial_machinery_state]⟩
  | tail hr hstep ih => exact step_inv hstep ih

theorem filter_peer_eq_nil {l : List Worker} {p : PeerId}
    (h : p ∉ l.map Worker.peer) :
    l.filter (fun w => w.peer = p) = [] := by
  rw [List.filter_eq_nil_iff]
  intro w hw
  simp only [decide_eq_true_eq]
  intro hh
  exact h (hh ▸ List.mem_map_of_mem Worker.peer hw)

theorem worker_count_le_one {l : List Worker}
    (h : (l.map Worker.peer).Nodup) (p : PeerId) :
    (l.filter (fun w => w.peer = p)).length ≤ 1 := by
  induction l with
  | nil => simp
  | cons x xs ih =>
    simp only [List.map_cons, List.nodup_cons] at h
    by_cases hxp : x.peer = p
    · rw [List.filter_cons_of_pos (by simp [hxp])]
      have hnil : xs.filter (fun w => w.peer = p) = [] := by
        refine filter_peer_eq_nil (fun hh => ?_)
        exact h.1 (hxp ▸ hh)
      rw [hnil]
      simp
    · rw [List.filter_cons_of_neg (by simp [hxp])]
      exact ih h.2

/-- Claim C9: in every reachable state there is at most one live worker
per peer; an arrival notification for an already-tracked peer spawns
nothing; and a connect, disconnect, atomic disconnect-detection, reconnect
sequence is a genuine execution that leaves exactly one live worker for
the peer — one after the first connect, zero after the detection, one
after the reconnect. -/
theorem logs_C9 :
    (∀ s, Reachable s → ∀ p, worker_count s.2 p ≤ 1) ∧
    (∀ (st : MachineryState) (p : PeerId) (e : DirEntry),
      p ∈ st.peers_handled → on_change st p (some e) = st) ∧
    (∀ (d : PeerId → Option DirEntry) (st : MachineryState) (p : PeerId)
        (e e2 : DirEntry), Reachable (d, st) → p ∉ st.peers_handled →
      Reachable
        (dirUpdate (dirUpdate (dirUpdate d p (some e)) p none) p (some e2),
          on_change (starter_barrier_dec st.starting
            (worker_exit_disc (on_change st p (some e))
              ⟨p, e.server_id, e.log_mailbox, st.starting, .discovering⟩))
            p (some e2)) ∧
      worker_count (on_change st p (some e)) p = 1 ∧
      worker_count (starter_barrier_dec st.starting
        (worker_exit_disc (on_change st p (some e))
          ⟨p, e.server_id, e.log_mailbox, st.starting, .discovering⟩)) p = 0 ∧
      worker_count (on_change (starter_barrier_dec st.starting
        (worker_exit_disc (on_change st p (some e))
          ⟨p, e.server_id, e.log_mailbox, st.starting, .discovering⟩))
        p (some e2)) p = 1) := by
  refine ⟨?_, ?_, ?_⟩
  · intro s hs p
    exact worker_count_le_one (reachable_inv hs).1 p
  · intro st p e hp
    rw [on_change, if_pos hp]
  · intro d st p e e2 hreach hp
    have hinv := reachable_inv hreach
    have hpw : p ∉ st.workers.map Worker.peer := fun hh => hp ((hinv.2 p).mp hh)
    set w : Worker := ⟨p, e.server_id, e.log_mailbox, st.starting, .discovering⟩
      with hw_def
    have hwnot : w ∉ st.workers := fun hh =>
      hpw (List.mem_map_of_mem Worker.peer hh)
    have h1 : on_change st p (some e) =
        { st with
          peers_handled := insert p st.peers_handled
          num_starters_left :=
            if st.starting then st.num_starters_left + 1 else st.num_starters_left
          workers := st.workers ++ [w] } := by
      rw [on_change, if_neg hp]
    have hfil : st.workers.filter (fun x => x.peer = p) = [] :=
      filter_peer_eq_nil hpw
    have hcount1 : worker_count (on_change st p (some e)) p = 1 := by
      rw [h1]
      unfold worker_count
      dsimp only
      rw [List.filter_append, hfil]
      simp [hw_def]
    have herase : (st.workers ++ [w]).erase w = st.workers := by
      rw [List.erase_append_right _ hwnot, List.erase_cons_head,
        List.append_nil]
    have hexit : (worker_exit_disc (on_change st p (some e)) w).workers =
        st.workers ∧
        (worker_exit_disc (on_change st p (some e)) w).peers_handled =
          st.peers_handled := by
      rw [h1]
      unfold worker_exit_disc
      dsimp only
      exact ⟨herase, Finset.erase_insert hp⟩
    have hcount0 : worker_count (starter_barrier_dec st.starting
        (worker_exit_disc (on_change st p (some e)) w)) p = 0 := by
      unfold worker_count
      rw [starter_barrier_dec_workers, hexit.1, hfil]
      rfl
    have hph2 : p ∉ (starter_barrier_dec st.starting
        (worker_exit_disc (on_change st p (some e)) w)).peers_handled := by
      rw [starter_barrier_dec_peers, hexit.2]
      exact hp
    have hcount_next : worker_count (on_change (starter_barrier_dec st.starting
        (worker_exit_disc (on_change st p (some e)) w)) p (some e2)) p = 1 := by
      rw [on_change, if_neg hph2]
      unfold worker_count
      dsimp only
      rw [List.filter_append, starter_barrier_dec_workers, hexit.1, hfil]
      simp
    refine ⟨?_, hcount1, hcount0, hcount_next⟩
    · have r1 : Reachable (dirUpdate d p (some e), on_change st p (some e)) :=
        hreach.tail (Step.connect d st p e)
      have r2 : Reachable (dirUpdate (dirUpdate d p (some e)) p none,
          on_change st p (some e)) := by
        have := r1.tail (Step.disconnect (dirUpdate d p (some e))
          (on_change st p (some e)) p)
        simpa [on_change] using this
      have hwmem : w ∈ (on_change st p (some e)).workers := by
        rw [h1]
        exact List.mem_append_right _ (List.mem_singleton_self w)
      have hdnone : (dirUpdate (dirUpdate d p (some e)) p none) w.peer = none := by
        simp [dirUpdate, hw_def]
      have r3 : Reachable (dirUpdate (dirUpdate d p (some e)) p none,
          starter_barrier_dec w.is_a_starter
            (worker_exit_disc (on_change st p (some e)) w)) :=
        r2.tail (Step.discoverGone _ _ w hwmem rfl hdnone)
      have r4 := r3.tail (Step.connect
        (dirUpdate (dirUpdate d p (some e)) p none)
        (starter_barrier_dec w.is_a_starter
          (worker_exit_disc (on_change st p (some e)) w)) p e2)
      exact r4

/-- Witness for C9: at the freshly constructed machinery every peer has at
most one worker. -/
theorem logs_C9_witness :
    worker_count initial_machinery_state 0 ≤ 1 :=
  logs_C9.1 (fun _ => none, initial_machinery_state) Relation.ReflTransGen.refl 0

/-- The row built for one callback invocation. -/
def row_of (c : CallbackCall) : Datum :=
  convert_log_message_to_datum c.message c.server_id c.server_name_datum

theorem giv_step_initial (acc : InitAcc) (c : CallbackCall) :
    (get_initial_values_step acc c).initial_values =
      acc.initial_values ++ [row_of c] := by
  unfold get_initial_values_step row_of
  cases acc.last_timestamps c.peer with
  | none => rfl
  | some t0 =>
    dsimp only
    split <;> rfl

theorem giv_step_changes (acc : InitAcc) (c : CallbackCall) :
    (get_initial_values_step acc c).changes = acc.changes ∨
      ∃ t0, acc.last_timestamps c.peer = some t0 ∧
        t0.ltb c.message.timestamp = true ∧
        (get_initial_values_step acc c).changes = acc.changes ++
          [⟨convert_log_key_to_datum c.message.timestamp c.server_id, none,
            row_of c⟩] := by
  unfold get_initial_values_step row_of
  cases h : acc.last_timestamps c.peer with
  | none => exact Or.inl rfl
  | some t0 =>
    dsimp only
    by_cases hlt : t0.ltb c.message.timestamp = true
    · rw [if_pos hlt]
      exact Or.inr ⟨t0, rfl, hlt, rfl⟩
    · rw [if_neg hlt]
      exact Or.inl rfl

theorem giv_step_lt_none {acc : InitAcc} {c : CallbackCall} {p : PeerId}
    (h : acc.last_timestamps p = none) :
    (get_initial_values_step acc c).last_timestamps p = none := by
  unfold get_initial_values_step
  cases hc : acc.last_timestamps c.peer with
  | none => exact h
  | some t0 =>
    dsimp only
    split
    · dsimp only
      have hne : p ≠ c.peer := by
        intro hh
        rw [hh, hc] at h
        cases h
      rw [if_neg hne]
      exact h
    · exact h

theorem giv_step_lt_some {acc : InitAcc} {c : CallbackCall} {p : PeerId}
    {t0 : Timespec} (h : acc.last_timestamps p = some t0) :
    ∃ t1, (get_initial_values_step acc c).last_timestamps p = some t1 ∧
      t0.leb t1 = true := by
  unfold get_initial_values_step
  cases hc : acc.last_timestamps c.peer with
  | none => exact ⟨t0, h, Timespec.leb_refl t0⟩
  | some tc =>
    dsimp only
    split
    · dsimp only
      by_cases hpe : p = c.peer
      · subst hpe
        rw [h] at hc
        cases hc
        rw [if_pos rfl]
        refine ⟨c.message.timestamp, rfl, Timespec.ltb_leb (by assumption)⟩
      · rw [if_neg hpe]
        exact ⟨t0, h, Timespec.leb_refl t0⟩
    · exact ⟨t0, h, Timespec.leb_refl t0⟩

theorem giv_fold_initial (calls : List CallbackCall) :
    ∀ acc : InitAcc,
      (calls.foldl get_initial_values_step acc).initial_values =
        acc.initial_values ++ calls.map row_of := by
  induction calls with
  | nil => intro acc; simp
  | cons c cs ih =>
    intro acc
    rw [List.foldl_cons, ih, giv_step_initial]
    simp

theorem giv_fold_lt_none (calls : List CallbackCall) :
    ∀ (acc : InitAcc) (p : PeerId), acc.last_timestamps p = none →
      (calls.foldl get_initial_values_step acc).last_timestamps p = none := by
  induction calls with
  | nil => intro acc p h; exact h
  | cons c cs ih =>
    intro acc p h
    rw [List.foldl_cons]
    exact ih _ p (giv_step_lt_none h)

theorem giv_fold_lt_some (calls : List CallbackCall) :
    ∀ (acc : InitAcc) (p : PeerId) (t0 : Timespec),
      acc.last_timestamps p = some t0 →
      ∃ t1, (calls.foldl get_initial_values_step acc).last_timestamps p = some t1 ∧
        t0.leb t1 = true := by
  induction calls with
  | nil => intro acc p t0 h; exact ⟨t0, h, Timespec.leb_refl t0⟩
  | cons c cs ih =>
    intro acc p t0 h
    rw [List.foldl_cons]
    obtain ⟨t1, h1, hle⟩ := giv_step_lt_some h
    obtain ⟨t2, h2, hle2⟩ := ih _ p t1 h1
    exact ⟨t2, h2, Timespec.leb_trans hle hle2⟩

theorem giv_fold_nochange (calls : List CallbackCall) :
    ∀ acc : InitAcc,
      (∀ c ∈ calls, ∀ t0, acc.last_timestamps c.peer = some t0 →
        c.message.timestamp.leb t0 = true) →
      (calls.foldl get_initial_values_step acc).changes = acc.changes ∧
        ∀ p, (calls.foldl get_initial_values_step acc).last_timestamps p =
          acc.last_timestamps p := by
  induction calls with
  | nil => intro acc _; exact ⟨rfl, fun p => rfl⟩
  | cons c cs ih =>
    intro acc hcond
    have hstep : get_initial_values_step acc c =
        { acc with initial_values := acc.initial_values ++ [row_of c] } := by
      unfold get_initial_values_step row_of
      cases hc : acc.last_timestamps c.peer with
      | none => rfl
      | some t0 =>
        dsimp only
        have hle := hcond c (List.mem_cons_self c cs) t0 hc
        rw [if_neg ?hneg]
        case hneg =>
          intro hlt
          rw [Timespec.not_leb_iff_ltb.symm] at hlt
          rw [hle] at hlt
          cases hlt
    rw [List.foldl_cons, hstep]
    have ihres := ih { acc with initial_values := acc.initial_values ++ [row_of c] }
      (fun x hx t0 hmap => hcond x (List.mem_cons_of_mem c hx) t0 hmap)
    exact ihres

/-- Claim C10: the initial-values snapshot appends every fetched entry to
the initial result set; a peer's recorded last timestamp only ever
advances (and never appears or disappears); when no entry qualifies (peer
untracked or timestamp not strictly newer) no notification is emitted and
the map is unchanged; and a qualifying entry emits exactly its
notification and advances the map. -/
theorem logs_C10 (m : PeerId → Option Timespec) (calls : List CallbackCall) :
    (get_initial_values m calls).initial_values = calls.map row_of ∧
    (∀ p, m p = none → (get_initial_values m calls).last_timestamps p = none) ∧
    (∀ p t0, m p = some t0 →
      ∃ t1, (get_initial_values m calls).last_timestamps p = some t1 ∧
        t0.leb t1 = true) ∧
    ((∀ c ∈ calls, ∀ t0, m c.peer = some t0 →
        c.message.timestamp.leb t0 = true) →
      (get_initial_values m calls).changes = [] ∧
        ∀ p, (get_initial_values m calls).last_timestamps p = m p) ∧
    (∀ (c : CallbackCall) (t0 : Timespec), m c.peer = some t0 →
      t0.ltb c.message.timestamp = true →
      (get_initial_values m [c]).changes =
        [⟨convert_log_key_to_datum c.message.timestamp c.server_id, none,
          row_of c⟩] ∧
      (get_initial_values m [c]).last_timestamps c.peer =
        some c.message.timestamp) := by
  refine ⟨?_, ?_, ?_, ?_, ?_⟩
  · rw [get_initial_values, giv_fold_initial]
    rfl
  · intro p h
    exact giv_fold_lt_none calls _ p h
  · intro p t0 h
    exact giv_fold_lt_some calls _ p t0 h
  · intro h
    exact giv_fold_nochange calls _ h
  · intro c t0 hm hlt
    unfold get_initial_values
    rw [List.foldl_cons, List.foldl_nil]
    unfold get_initial_values_step row_of
    dsimp only
    rw [hm]
    dsimp only
    rw [if_pos hlt]
    exact ⟨rfl, by simp⟩

/-- Witness for C10: one qualifying entry emits its notification and
advances the recorded timestamp. -/
theorem logs_C10_witness :
    (get_initial_values (fun p => if p = 0 then some ⟨0, 0⟩ else none)
        [⟨⟨⟨1, 0⟩, ⟨1, 0⟩, .info, "x"⟩, 0, "s", Datum.null⟩]).changes =
      [⟨convert_log_key_to_datum (⟨1, 0⟩ : Timespec) "s", none,
        row_of ⟨⟨⟨1, 0⟩, ⟨1, 0⟩, .info, "x"⟩, 0, "s", Datum.null⟩⟩] ∧
    (get_initial_values (fun p => if p = 0 then some ⟨0, 0⟩ else none)
        [⟨⟨⟨1, 0⟩, ⟨1, 0⟩, .info, "x"⟩, 0, "s", Datum.null⟩]).last_timestamps 0 =
      some ⟨1, 0⟩ :=
  (logs_C10 (fun p => if p = 0 then some ⟨0, 0⟩ else none) []).2.2.2.2
    ⟨⟨⟨1, 0⟩, ⟨1, 0⟩, .info, "x"⟩, 0, "s", Datum.null⟩ ⟨0, 0⟩ rfl (by decide)

end LogsBackend
